import Mathlib

/-!
Verification of the SHAVER financial engine (src/streamlit.py).

The engine is embedded shallowly:
* all deterministic arithmetic (`calculate_system_cost`, peak-reduction
  sizing, annual savings, the cumulative-NPV loop, payback detection) is
  embedded over `ℚ`, with Python float literals read as exact rationals;
* the IRR step calls numpy's polynomial root finder inside a
  try/except; it is embedded relationally over `ℝ` (`irrRel`): the code
  builds the coefficient list `[total_cost] + [-annual_savings] * n`,
  keeps the roots with positive real part and negligible imaginary part
  (idealised here as the positive real zeros of the polynomial; numpy
  returns no roots at all when every coefficient is zero), subtracts 1
  from the first such root, and falls back to the sentinel 0 when the
  selection is empty or the solver raises.
-/

namespace Shaver

/-- Input parameter record handed to the engine (the `params` dict of the
source; `discount_rate` is in percent, as in the source, and
`analysis_years` is the integer horizon). -/
structure Params where
  peak_load_kw : ℚ
  peak_duration_hours : ℚ
  battery_power_kw : ℚ
  battery_capacity_kwh : ℚ
  peak_demand_charge : ℚ
  battery_cost_per_kwh : ℚ
  inverter_cost_per_kw : ℚ
  installation_factor : ℚ
  discount_rate : ℚ
  analysis_years : ℕ

/-- The dict returned by `calculate_system_cost` in the source. -/
structure SystemCosts where
  battery_cost : ℚ
  inverter_cost : ℚ
  installation_cost : ℚ
  total_cost : ℚ
deriving DecidableEq

/-- Embedding of `calculate_system_cost` (src/streamlit.py lines 5-16). -/
def calculate_system_cost (p : Params) : SystemCosts :=
  let battery_cost := p.battery_capacity_kwh * p.battery_cost_per_kwh
  let inverter_cost := p.battery_power_kw * p.inverter_cost_per_kw
  let installation_cost := (battery_cost + inverter_cost) * p.installation_factor
  { battery_cost := battery_cost
    inverter_cost := inverter_cost
    installation_cost := installation_cost
    total_cost := battery_cost + inverter_cost + installation_cost }

/-- Embedding of the payback loop (src/streamlit.py lines 53-58): scan the
NPV list in order and stop at the first entry `≥ 0`; `none` stands for the
`float('inf')` sentinel returned when the loop finds nothing. -/
def payback : List ℚ → Option ℕ
  | [] => none
  | x :: xs => if 0 ≤ x then some 0 else (payback xs).map (· + 1)

/-- Embedding of the cumulative-NPV loop (src/streamlit.py lines 43-51):
`running` is the running NPV, and each year `y ≥ 1` adds the discounted
annual savings `A / (1 + dr) ^ y` before appending. -/
def npvLoop (A dr : ℚ) (running : ℚ) : List ℕ → List ℚ
  | [] => []
  | y :: ys =>
      if y = 0 then running :: npvLoop A dr running ys
      else
        let next := running + A / (1 + dr) ^ y
        next :: npvLoop A dr next ys

/-- The result dict of `calculate_cashflows`; `payback_period = none`
encodes the `float('inf')` sentinel.  The IRR entry is modelled separately
by `irrRel` because the source computes it with numpy's root finder. -/
structure CashflowResult where
  years : List ℕ
  npv_values : List ℚ
  annual_savings : ℚ
  system_costs : SystemCosts
  peak_reduction : ℚ
  payback_period : Option ℕ

/-- Embedding of `calculate_cashflows` (src/streamlit.py lines 18-75),
except for the IRR step, which is modelled by `irrRel`. -/
def calculate_cashflows (p : Params) : CashflowResult :=
  let costs := calculate_system_cost p
  let total_system_cost := costs.total_cost
  let power_limited_reduction := min p.battery_power_kw p.peak_load_kw
  let energy_limited_reduction :=
    min (p.battery_capacity_kwh * (0.9 : ℚ) / p.peak_duration_hours) p.peak_load_kw
  let actual_peak_reduction := min power_limited_reduction energy_limited_reduction
  let monthly_savings := actual_peak_reduction * p.peak_demand_charge
  let annual_savings := monthly_savings * 12
  let years := List.range (p.analysis_years + 1)
  let discount_rate := p.discount_rate / 100
  let npv_values := npvLoop annual_savings discount_rate (-total_system_cost) years
  { years := years
    npv_values := npv_values
    annual_savings := annual_savings
    system_costs := costs
    peak_reduction := actual_peak_reduction
    payback_period := payback npv_values }

/-- Modelled from the spec: the blended cost-model variant (a single
`system_cost_per_kwh`) is absent from src/streamlit.py, which implements
only the decomposed variant; this definition follows spec section 4.1:
`total_cost = battery_capacity_kwh * system_cost_per_kwh`, with the
battery/inverter/installation sub-costs reported as zero. -/
def calculate_system_cost_blended (battery_capacity_kwh system_cost_per_kwh : ℚ) :
    SystemCosts :=
  { battery_cost := 0
    inverter_cost := 0
    installation_cost := 0
    total_cost := battery_capacity_kwh * system_cost_per_kwh }

/-- Reference cumulative NPV after `y` years: the closed form of the
running value of the source's NPV loop. -/
def npvRef (C A dr : ℚ) (y : ℕ) : ℚ :=
  -C + ∑ t ∈ Finset.Icc 1 y, A / (1 + dr) ^ t

/-- Value at `x` of the polynomial whose coefficient list the source hands
to the root finder (src/streamlit.py line 62):
`[total_cost] + [-annual_savings] * n`, i.e.
`C * x ^ n - A * (x ^ (n-1) + ... + x + 1)`. -/
noncomputable def cashPolyEval (C A : ℝ) (n : ℕ) (x : ℝ) : ℝ :=
  C * x ^ n - A * ∑ t ∈ Finset.range n, x ^ t

/-- The discounted-cash-flow equation the IRR is meant to solve:
`npvEq C A n r = -C + Σ_{t=1..n} A / (1+r)^t`. -/
noncomputable def npvEq (C A : ℝ) (n : ℕ) (r : ℝ) : ℝ :=
  -C + ∑ t ∈ Finset.Icc 1 n, A / (1 + r) ^ t

/-- Relational embedding of the IRR step (src/streamlit.py lines 60-65).
`irrRel C A n i` holds when `i` is a value the step can return: either
`i = x - 1` for a positive real zero `x` of the cash-flow polynomial
(numpy's root list is empty when every coefficient is zero, i.e. when
`C = 0` and `A = 0`, hence the side condition), or the selection is empty
and the except-branch returns the sentinel `0`. -/
def irrRel (C A : ℝ) (n : ℕ) (i : ℝ) : Prop :=
  (∃ x : ℝ, 0 < x ∧ cashPolyEval C A n x = 0 ∧ (C ≠ 0 ∨ A ≠ 0) ∧ i = x - 1) ∨
  ((¬ ∃ x : ℝ, 0 < x ∧ cashPolyEval C A n x = 0 ∧ (C ≠ 0 ∨ A ≠ 0)) ∧ i = 0)

/-- A concrete parameter set used to instantiate hypotheses: unit-sized
battery at unit cost, no inverter or installation cost, zero discount
rate, two-year horizon. -/
def pW : Params :=
  { peak_load_kw := 10
    peak_duration_hours := 1
    battery_power_kw := 1
    battery_capacity_kwh := 1
    peak_demand_charge := 1
    battery_cost_per_kwh := 1
    inverter_cost_per_kw := 0
    installation_factor := 0
    discount_rate := 0
    analysis_years := 2 }

/-- A concrete parameter set with zero demand charge and zero-sized (hence
zero-cost) battery: a valid input under the spec's constraints (both are
only required to be nonnegative). -/
def pZ : Params :=
  { peak_load_kw := 72
    peak_duration_hours := 5 / 2
    battery_power_kw := 0
    battery_capacity_kwh := 0
    peak_demand_charge := 0
    battery_cost_per_kwh := 300
    inverter_cost_per_kw := 200
    installation_factor := 3 / 10
    discount_rate := 8
    analysis_years := 2 }

/-- A concrete parameter set with zero demand charge but a positive-cost
battery. -/
def pZC : Params :=
  { peak_load_kw := 72
    peak_duration_hours := 5 / 2
    battery_power_kw := 0
    battery_capacity_kwh := 1
    peak_demand_charge := 0
    battery_cost_per_kwh := 300
    inverter_cost_per_kw := 200
    installation_factor := 3 / 10
    discount_rate := 8
    analysis_years := 2 }

/-- A concrete parameter set that encodes the blended cost model through
the decomposed fields (inverter and installation costs zero), using the
spec's concrete scenario numbers. -/
def pBlend : Params :=
  { peak_load_kw := 72
    peak_duration_hours := 5 / 2
    battery_power_kw := 60
    battery_capacity_kwh := 210
    peak_demand_charge := 22
    battery_cost_per_kwh := 426
    inverter_cost_per_kw := 0
    installation_factor := 0
    discount_rate := 8
    analysis_years := 15 }

/-- A concrete parameter set whose annual savings (1) are positive but far
below the total system cost (100) over the 5-year horizon, so the
discounted-cash-flow equation has no positive root. -/
def p6 : Params :=
  { peak_load_kw := 10
    peak_duration_hours := 1
    battery_power_kw := 1
    battery_capacity_kwh := 10 / 9
    peak_demand_charge := 1 / 12
    battery_cost_per_kwh := 90
    inverter_cost_per_kw := 0
    installation_factor := 0
    discount_rate := 8
    analysis_years := 5 }

/-! ### Closed form of the NPV loop -/

lemma npvRef_zero (C A dr : ℚ) : npvRef C A dr 0 = -C := by
  simp [npvRef]

lemma npvRef_succ (C A dr : ℚ) (y : ℕ) :
    npvRef C A dr (y + 1) = npvRef C A dr y + A / (1 + dr) ^ (y + 1) := by
  unfold npvRef
  rw [Finset.sum_Icc_succ_top (Nat.le_add_left 1 y)]
  ring

lemma npvLoop_range_aux (C A dr : ℚ) :
    ∀ (k b : ℕ), npvLoop A dr (npvRef C A dr b) (List.range' (b + 1) k) =
      (List.range' (b + 1) k).map (npvRef C A dr) := by
  intro k
  induction k with
  | zero => intro b; simp [npvLoop]
  | succ k ih =>
      intro b
      rw [List.range'_succ]
      simp only [npvLoop, List.map_cons, if_neg (Nat.succ_ne_zero b)]
      rw [← npvRef_succ]
      have hb : b + 1 + 1 = (b + 1) + 1 := rfl
      rw [hb, ih (b + 1)]

/-- The source's NPV loop over the years `0..n` produces exactly the
reference cumulative-NPV values. -/
lemma npvLoop_range (C A dr : ℚ) (n : ℕ) :
    npvLoop A dr (-C) (List.range (n + 1)) =
      (List.range (n + 1)).map (npvRef C A dr) := by
  rw [List.range_eq_range', List.range'_succ]
  simp only [npvLoop, List.map_cons, if_pos rfl, npvRef_zero]
  rw [← npvRef_zero C A dr, npvLoop_range_aux C A dr n 0]
  simp

/-- The `npv_values` field of the result, in closed form. -/
lemma npv_values_eq (p : Params) :
    (calculate_cashflows p).npv_values =
      (List.range (p.analysis_years + 1)).map
        (npvRef (calculate_system_cost p).total_cost
          (calculate_cashflows p).annual_savings (p.discount_rate / 100)) := by
  unfold calculate_cashflows
  exact npvLoop_range _ _ _ _

lemma npv_values_getD (p : Params) (i : ℕ) (h : i < p.analysis_years + 1) :
    (calculate_cashflows p).npv_values.getD i 0 =
      npvRef (calculate_system_cost p).total_cost
        (calculate_cashflows p).annual_savings (p.discount_rate / 100) i := by
  rw [npv_values_eq, List.getD_eq_getElem?_getD, List.getElem?_map,
    List.getElem?_range h]
  rfl

lemma npv_values_length (p : Params) :
    (calculate_cashflows p).npv_values.length = p.analysis_years + 1 := by
  rw [npv_values_eq, List.length_map, List.length_range]

/-! ### Characterisation of the payback scan -/

lemma payback_some_iff :
    ∀ (l : List ℚ) (i : ℕ), payback l = some i ↔
      (i < l.length ∧ 0 ≤ l.getD i 0 ∧ ∀ j, j < i → l.getD j 0 < 0) := by
  intro l
  induction l with
  | nil => intro i; simp [payback]
  | cons x xs ih =>
      intro i
      by_cases hx : 0 ≤ x
      · cases i with
        | zero => simp [payback, hx]
        | succ j =>
            simp only [payback, if_pos hx]
            constructor
            · intro h; exact absurd h (by simp)
            · rintro ⟨-, -, hall⟩
              have := hall 0 (Nat.succ_pos j)
              rw [List.getD_cons_zero] at this
              exact absurd hx (not_le.mpr this)
      · cases i with
        | zero =>
            simp only [payback, if_neg hx]
            constructor
            · intro h
              rcases Option.map_eq_some'.mp h with ⟨a, -, ha⟩
              exact absurd ha (Nat.succ_ne_zero a)
            · rintro ⟨-, h0, -⟩
              rw [List.getD_cons_zero] at h0
              exact absurd h0 hx
        | succ j =>
            simp only [payback, if_neg hx]
            constructor
            · intro h
              rcases Option.map_eq_some'.mp h with ⟨a, ha, haj⟩
              have haj2 : a = j := Nat.succ_injective haj
              subst haj2
              rcases (ih a).mp ha with ⟨hlen, hge, hall⟩
              refine ⟨Nat.succ_lt_succ hlen, ?_, ?_⟩
              · rw [List.getD_cons_succ]; exact hge
              · intro k hk
                cases k with
                | zero => rw [List.getD_cons_zero]; exact not_le.mp hx
                | succ m =>
                    rw [List.getD_cons_succ]
                    exact hall m (Nat.lt_of_succ_lt_succ hk)
            · rintro ⟨hlen, hge, hall⟩
              have hxs : payback xs = some j := by
                refine (ih j).mpr ⟨Nat.lt_of_succ_lt_succ hlen, ?_, ?_⟩
                · rw [List.getD_cons_succ] at hge; exact hge
                · intro m hm
                  have := hall (m + 1) (Nat.succ_lt_succ hm)
                  rw [List.getD_cons_succ] at this
                  exact this
              rw [hxs]; rfl

lemma payback_none_iff (l : List ℚ) :
    payback l = none ↔ ∀ i, i < l.length → l.getD i 0 < 0 := by
  induction l with
  | nil => simp [payback]
  | cons x xs ih =>
      by_cases hx : 0 ≤ x
      · simp only [payback, if_pos hx]
        constructor
        · intro h; exact absurd h (by simp)
        · intro h
          have := h 0 (Nat.succ_pos xs.length)
          rw [List.getD_cons_zero] at this
          exact absurd hx (not_le.mpr this)
      · simp only [payback, if_neg hx]
        rw [Option.map_eq_none', ih]
        constructor
        · intro h i hi
          cases i with
          | zero => rw [List.getD_cons_zero]; exact not_le.mp hx
          | succ m =>
              rw [List.getD_cons_succ]
              exact h m (Nat.lt_of_succ_lt_succ hi)
        · intro h m hm
          have := h (m + 1) (Nat.succ_lt_succ hm)
          rw [List.getD_cons_succ] at this
          exact this

/-! ### The root selection of the IRR step in degenerate cases -/

lemma noSelection_of_A_zero (C A : ℝ) (n : ℕ) (hA : A = 0) (hC : C ≠ 0) :
    ¬ ∃ x : ℝ, 0 < x ∧ cashPolyEval C A n x = 0 ∧ (C ≠ 0 ∨ A ≠ 0) := by
  rintro ⟨x, hx, hroot, -⟩
  subst hA
  unfold cashPolyEval at hroot
  have hxn : x ^ n ≠ 0 := pow_ne_zero n (ne_of_gt hx)
  rw [mul_comm, zero_mul, sub_zero] at hroot
  exact hC (by
    rcases mul_eq_zero.mp hroot with h | h
    · exact absurd h hxn
    · exact h)

lemma noSelection_of_C_zero (C A : ℝ) (n : ℕ) (hn : 1 ≤ n) (hC : C = 0) :
    ¬ ∃ x : ℝ, 0 < x ∧ cashPolyEval C A n x = 0 ∧ (C ≠ 0 ∨ A ≠ 0) := by
  rintro ⟨x, hx, hroot, hne⟩
  rcases hne with h0 | hA
  · exact h0 hC
  subst hC
  unfold cashPolyEval at hroot
  rw [zero_mul, zero_sub, neg_eq_zero] at hroot
  have hsum : 0 < ∑ t ∈ Finset.range n, x ^ t := by
    apply Finset.sum_pos
    · intro t _; exact pow_pos hx t
    · exact ⟨0, Finset.mem_range.mpr (Nat.lt_of_lt_of_le Nat.zero_lt_one hn)⟩
  rcases mul_eq_zero.mp hroot with h | h
  · exact hA h
  · exact absurd h (ne_of_gt hsum)

lemma irrRel_iff_zero_of_noSelection (C A : ℝ) (n : ℕ)
    (h : ¬ ∃ x : ℝ, 0 < x ∧ cashPolyEval C A n x = 0 ∧ (C ≠ 0 ∨ A ≠ 0)) :
    ∀ i : ℝ, irrRel C A n i ↔ i = 0 := by
  intro i
  constructor
  · rintro (⟨x, hx, hr, hne, rfl⟩ | ⟨-, h0⟩)
    · exact absurd ⟨x, hx, hr, hne⟩ h
    · exact h0
  · rintro rfl
    exact Or.inr ⟨h, rfl⟩

/-! ### The discounted-cash-flow equation and the cash-flow polynomial -/

lemma sum_inv_pow_mul (x : ℝ) (hx : x ≠ 0) :
    ∀ n : ℕ, (∑ t ∈ Finset.Icc 1 n, (x ^ t)⁻¹) * x ^ n =
      ∑ s ∈ Finset.range n, x ^ s := by
  intro n
  induction n with
  | zero => simp
  | succ n ih =>
      rw [Finset.sum_Icc_succ_top (Nat.le_add_left 1 n), add_mul,
        inv_mul_cancel₀ (pow_ne_zero (n + 1) hx), geom_sum_succ,
        pow_succ, ← mul_assoc, ih]
      ring

lemma npvEq_mul_pow (C A x : ℝ) (n : ℕ) (hx : x ≠ 0) :
    npvEq C A n (x - 1) * x ^ n = -cashPolyEval C A n x := by
  unfold npvEq cashPolyEval
  rw [show (1 : ℝ) + (x - 1) = x by ring, add_mul]
  simp only [div_eq_mul_inv]
  rw [← Finset.mul_sum, mul_assoc, sum_inv_pow_mul x hx n]
  ring

/-- Accepted roots of the source's polynomial are exactly the solutions,
shifted by one, of the discounted-cash-flow equation. -/
lemma cashPoly_zero_iff (C A x : ℝ) (n : ℕ) (hx : 0 < x) :
    cashPolyEval C A n x = 0 ↔ npvEq C A n (x - 1) = 0 := by
  have h := npvEq_mul_pow C A x n (ne_of_gt hx)
  have hxn : x ^ n ≠ 0 := pow_ne_zero _ (ne_of_gt hx)
  constructor
  · intro h0
    rw [h0, neg_zero] at h
    rcases mul_eq_zero.mp h with h1 | h1
    · exact h1
    · exact absurd h1 hxn
  · intro h0
    rw [h0, zero_mul] at h
    exact neg_eq_zero.mp h.symm

/-- With positive savings the discounted-cash-flow equation is strictly
decreasing in the rate on `(-1, ∞)`. -/
lemma npvEq_strictAntiOn (C A : ℝ) (n : ℕ) (hA : 0 < A) (hn : 1 ≤ n) :
    StrictAntiOn (npvEq C A n) (Set.Ioi (-1 : ℝ)) := by
  intro r1 h1 r2 h2 hlt
  unfold npvEq
  have h1r1 : 0 < 1 + r1 := by have := Set.mem_Ioi.mp h1; linarith
  have hsum : ∑ t ∈ Finset.Icc 1 n, A / (1 + r2) ^ t <
      ∑ t ∈ Finset.Icc 1 n, A / (1 + r1) ^ t := by
    apply Finset.sum_lt_sum_of_nonempty ⟨1, Finset.mem_Icc.mpr ⟨le_refl 1, hn⟩⟩
    intro t ht
    have ht1 : 1 ≤ t := (Finset.mem_Icc.mp ht).1
    apply div_lt_div_of_pos_left hA (pow_pos h1r1 t)
    exact pow_lt_pow_left₀ (by linarith) (le_of_lt h1r1)
      (Nat.pos_iff_ne_zero.mp ht1)
  linarith

/-- With positive cost, positive savings and a horizon of at least a year,
the cash-flow polynomial has a positive real root (by the intermediate
value theorem between a small and a large evaluation point). -/
lemma exists_pos_root (C A : ℝ) (n : ℕ) (hC : 0 < C) (hA : 0 < A)
    (hn : 1 ≤ n) : ∃ x : ℝ, 0 < x ∧ cashPolyEval C A n x = 0 := by
  have hcont : Continuous fun x : ℝ => cashPolyEval C A n x := by
    unfold cashPolyEval
    exact (continuous_const.mul (continuous_pow n)).sub
      (continuous_const.mul
        (continuous_finset_sum _ fun i _ => continuous_pow i))
  have haC : 0 < A + C := by linarith
  set a := A / (A + C) with ha
  have ha0 : 0 < a := div_pos hA haC
  have ha1 : a ≤ 1 := by rw [ha, div_le_one haC]; linarith
  have hfa : cashPolyEval C A n a < 0 := by
    unfold cashPolyEval
    have hsum1 : (1 : ℝ) ≤ ∑ t ∈ Finset.range n, a ^ t := by
      have h0mem : 0 ∈ Finset.range n :=
        Finset.mem_range.mpr (Nat.lt_of_lt_of_le Nat.zero_lt_one hn)
      have := Finset.single_le_sum (f := fun t => a ^ t)
        (fun i _ => le_of_lt (pow_pos ha0 i)) h0mem
      simpa using this
    have hpow : a ^ n ≤ a := pow_le_of_le_one (le_of_lt ha0) ha1
      (Nat.pos_iff_ne_zero.mp hn)
    have hCa : C * a < A := by
      rw [ha]
      rw [div_eq_mul_inv, ← mul_assoc]
      rw [show C * A * (A + C)⁻¹ = A * (C * (A + C)⁻¹) by ring]
      have hfrac : C * (A + C)⁻¹ < 1 := by
        rw [← div_eq_mul_inv, div_lt_one haC]
        linarith
      nlinarith
    have hCan : C * a ^ n ≤ C * a := by nlinarith
    nlinarith
  set b := 1 + A * n / C with hb
  have hb1 : (1 : ℝ) ≤ b := by
    rw [hb]
    have : 0 ≤ A * n / C := by positivity
    linarith
  have hfb : 0 < cashPolyEval C A n b := by
    unfold cashPolyEval
    have hsum : ∑ t ∈ Finset.range n, b ^ t ≤ (n : ℝ) * b ^ (n - 1) := by
      have := Finset.sum_le_card_nsmul (Finset.range n) (fun t => b ^ t)
        (b ^ (n - 1)) (fun t ht =>
          pow_le_pow_right₀ hb1 (Nat.le_pred_of_lt (Finset.mem_range.mp ht)))
      simpa [nsmul_eq_mul] using this
    have hbn : b ^ n = b ^ (n - 1) * b := by
      rw [← pow_succ]
      congr 1
      omega
    have hCb : C * b = C + A * n := by
      rw [hb]
      field_simp
    have hbpos : 0 < b ^ (n - 1) := pow_pos (by linarith) _
    calc (0 : ℝ) < C * b ^ (n - 1) := by positivity
      _ = (C + A * n) * b ^ (n - 1) - A * n * b ^ (n - 1) := by ring
      _ = C * b * b ^ (n - 1) - A * n * b ^ (n - 1) := by rw [hCb]
      _ = C * b ^ n - A * ((n : ℝ) * b ^ (n - 1)) := by rw [hbn]; ring
      _ ≤ C * b ^ n - A * ∑ t ∈ Finset.range n, b ^ t := by nlinarith
  have hab : a ≤ b := le_trans ha1 hb1
  obtain ⟨x, hxmem, hfx⟩ := intermediate_value_Icc hab hcont.continuousOn
    ⟨le_of_lt hfa, le_of_lt hfb⟩
  exact ⟨x, lt_of_lt_of_le ha0 hxmem.1, hfx⟩

/-- Existence and uniqueness of the rate solving the
discounted-cash-flow equation, in the half-line `r > -1` the source's
root filter corresponds to. -/
lemma existsUnique_rate (C A : ℝ) (n : ℕ) (hC : 0 < C) (hA : 0 < A)
    (hn : 1 ≤ n) : ∃! r : ℝ, -1 < r ∧ npvEq C A n r = 0 := by
  obtain ⟨x, hx, hroot⟩ := exists_pos_root C A n hC hA hn
  refine ⟨x - 1, ⟨by linarith, (cashPoly_zero_iff C A x n hx).mp hroot⟩, ?_⟩
  rintro r ⟨hr, hr0⟩
  have hx1 : -1 < x - 1 := by linarith
  have hxroot : npvEq C A n (x - 1) = 0 :=
    (cashPoly_zero_iff C A x n hx).mp hroot
  by_contra hne
  rcases lt_or_gt_of_ne hne with h | h
  · have := npvEq_strictAntiOn C A n hA hn (Set.mem_Ioi.mpr hr)
      (Set.mem_Ioi.mpr hx1) h
    rw [hr0, hxroot] at this
    exact lt_irrefl 0 this
  · have := npvEq_strictAntiOn C A n hA hn (Set.mem_Ioi.mpr hx1)
      (Set.mem_Ioi.mpr hr) h
    rw [hr0, hxroot] at this
    exact lt_irrefl 0 this

/-! ### Claims -/

/-- C1: for every valid input (`analysis_years ≥ 1`,
`discount_rate ≥ 0`), the `npv_values` sequence of `calculate_cashflows`
has length `analysis_years + 1`, starts at `-total_system_cost`, and
satisfies the cumulative discounted recurrence
`npv[year] = npv[year-1] + annual_savings / (1 + discount_rate/100) ^ year`
for every year from 1 to `analysis_years`. -/
theorem C1_npv_sequence (p : Params)
    (hy : 1 ≤ p.analysis_years) (hd : 0 ≤ p.discount_rate) :
    (calculate_cashflows p).npv_values.length = p.analysis_years + 1 ∧
    (calculate_cashflows p).npv_values.getD 0 0 =
      -(calculate_system_cost p).total_cost ∧
    ∀ year, 1 ≤ year → year ≤ p.analysis_years →
      (calculate_cashflows p).npv_values.getD year 0 =
        (calculate_cashflows p).npv_values.getD (year - 1) 0 +
          (calculate_cashflows p).annual_savings /
            (1 + p.discount_rate / 100) ^ year := by
  refine ⟨npv_values_length p, ?_, ?_⟩
  · rw [npv_values_getD p 0 (Nat.succ_pos _), npvRef_zero]
  · intro year h1 h2
    obtain ⟨y, rfl⟩ : ∃ y, year = y + 1 :=
      ⟨year - 1, (Nat.succ_pred_eq_of_pos h1).symm⟩
    have hb1 : y + 1 < p.analysis_years + 1 := Nat.succ_lt_succ h2
    have hb0 : y < p.analysis_years + 1 := Nat.lt_of_succ_lt hb1
    rw [npv_values_getD p (y + 1) hb1, Nat.succ_sub_one,
      npv_values_getD p y hb0, npvRef_succ]

/-- Witness for C1 at the concrete parameter set `pW`. -/
theorem C1_npv_sequence_witness :
    (calculate_cashflows pW).npv_values.getD 1 0 =
      (calculate_cashflows pW).npv_values.getD 0 0 +
        (calculate_cashflows pW).annual_savings /
          (1 + pW.discount_rate / 100) ^ 1 :=
  (C1_npv_sequence pW (by decide) (by decide)).2.2 1 (by decide) (by decide)

/-- C2: with `peak_duration_hours > 0`, the peak reduction equals
`min (min battery_power peak_load) (min (capacity * 0.9 / duration) peak_load)`,
with 0.9 the fixed engine constant, and never exceeds
`min battery_power peak_load`. -/
theorem C2_peak_reduction (p : Params) (h : 0 < p.peak_duration_hours) :
    (calculate_cashflows p).peak_reduction =
      min (min p.battery_power_kw p.peak_load_kw)
        (min (p.battery_capacity_kwh * (0.9 : ℚ) / p.peak_duration_hours)
          p.peak_load_kw) ∧
    (calculate_cashflows p).peak_reduction ≤
      min p.battery_power_kw p.peak_load_kw :=
  ⟨rfl, min_le_left _ _⟩

/-- Witness for C2 at the concrete parameter set `pW`. -/
theorem C2_peak_reduction_witness :
    (calculate_cashflows pW).peak_reduction =
      min (min pW.battery_power_kw pW.peak_load_kw)
        (min (pW.battery_capacity_kwh * (0.9 : ℚ) / pW.peak_duration_hours)
          pW.peak_load_kw) :=
  (C2_peak_reduction pW (by decide)).1

/-- C3: `calculate_system_cost` returns the decomposed cost model:
battery cost `capacity * cost_per_kwh`, inverter cost
`power * cost_per_kw`, installation cost
`(battery + inverter) * installation_factor`, and their sum as total; the
function is total on all inputs. -/
theorem C3_system_cost (p : Params) :
    (calculate_system_cost p).battery_cost =
      p.battery_capacity_kwh * p.battery_cost_per_kwh ∧
    (calculate_system_cost p).inverter_cost =
      p.battery_power_kw * p.inverter_cost_per_kw ∧
    (calculate_system_cost p).installation_cost =
      ((calculate_system_cost p).battery_cost +
        (calculate_system_cost p).inverter_cost) * p.installation_factor ∧
    (calculate_system_cost p).total_cost =
      (calculate_system_cost p).battery_cost +
        (calculate_system_cost p).inverter_cost +
        (calculate_system_cost p).installation_cost :=
  ⟨rfl, rfl, rfl, rfl⟩

/-- C4: the payback period is the first index with nonnegative cumulative
NPV (boundary inclusive), `none` (the infinity sentinel) when no such
index exists; when finite, the NPV there is nonnegative and the previous
entry, if any, is negative. -/
theorem C4_payback (p : Params) :
    (∀ i, (calculate_cashflows p).payback_period = some i ↔
      (i < (calculate_cashflows p).npv_values.length ∧
        0 ≤ (calculate_cashflows p).npv_values.getD i 0 ∧
        ∀ j, j < i → (calculate_cashflows p).npv_values.getD j 0 < 0)) ∧
    ((calculate_cashflows p).payback_period = none ↔
      ∀ i, i < (calculate_cashflows p).npv_values.length →
        (calculate_cashflows p).npv_values.getD i 0 < 0) ∧
    (∀ i, (calculate_cashflows p).payback_period = some i →
      0 ≤ (calculate_cashflows p).npv_values.getD i 0 ∧
      (0 < i → (calculate_cashflows p).npv_values.getD (i - 1) 0 < 0)) := by
  have hpp : (calculate_cashflows p).payback_period =
      payback (calculate_cashflows p).npv_values := rfl
  refine ⟨?_, ?_, ?_⟩
  · intro i; rw [hpp]; exact payback_some_iff _ i
  · rw [hpp]; exact payback_none_iff _
  · intro i hi
    rw [hpp] at hi
    rcases (payback_some_iff _ i).mp hi with ⟨-, hge, hall⟩
    exact ⟨hge, fun h0 => hall (i - 1) (Nat.pred_lt (Nat.pos_iff_ne_zero.mp h0))⟩

/-- Witness for C4 at the concrete parameter set `pW`, whose payback
period is year 1. -/
theorem C4_payback_witness :
    0 ≤ (calculate_cashflows pW).npv_values.getD 1 0 ∧
    (0 < 1 → (calculate_cashflows pW).npv_values.getD 0 0 < 0) :=
  (C4_payback pW).2.2 1 (by
    norm_num [calculate_cashflows, calculate_system_cost, pW, npvLoop,
      payback, show List.range 3 = [0, 1, 2] from rfl])

/-- C5: the blended cost model returns
`total_cost = capacity * system_cost_per_kwh` with zero sub-costs, and
coincides with the source's decomposed `calculate_system_cost` when
`battery_cost_per_kwh = system_cost_per_kwh`, `inverter_cost_per_kw = 0`,
`installation_factor = 0`. -/
theorem C5_blended (capacity scpk : ℚ) (p : Params)
    (hcap : p.battery_capacity_kwh = capacity)
    (hbat : p.battery_cost_per_kwh = scpk)
    (hinv : p.inverter_cost_per_kw = 0)
    (hins : p.installation_factor = 0) :
    (calculate_system_cost_blended capacity scpk).total_cost =
      capacity * scpk ∧
    (calculate_system_cost_blended capacity scpk).battery_cost = 0 ∧
    (calculate_system_cost_blended capacity scpk).inverter_cost = 0 ∧
    (calculate_system_cost_blended capacity scpk).installation_cost = 0 ∧
    (calculate_system_cost p).total_cost =
      (calculate_system_cost_blended capacity scpk).total_cost := by
  refine ⟨rfl, rfl, rfl, rfl, ?_⟩
  unfold calculate_system_cost calculate_system_cost_blended
  simp only [hcap, hbat, hinv, hins]
  ring

/-- Witness for C5 at the spec's concrete scenario numbers (capacity 210,
blended cost 426) through the parameter set `pBlend`. -/
theorem C5_blended_witness :
    (calculate_system_cost_blended 210 426).total_cost = 210 * 426 ∧
    (calculate_system_cost_blended 210 426).battery_cost = 0 ∧
    (calculate_system_cost_blended 210 426).inverter_cost = 0 ∧
    (calculate_system_cost_blended 210 426).installation_cost = 0 ∧
    (calculate_system_cost pBlend).total_cost =
      (calculate_system_cost_blended 210 426).total_cost :=
  C5_blended 210 426 pBlend rfl rfl rfl rfl

/-- C6 counterexample: at the concrete input `p6` the annual savings (1)
and the total cost (100) are both positive, yet the discounted-cash-flow
equation has no positive real root at all, refuting the claimed
guarantee that the IRR is "the unique positive real root". -/
theorem C6_counterexample :
    0 < (calculate_cashflows p6).annual_savings ∧
    0 < (calculate_system_cost p6).total_cost ∧
    ¬ ∃ r : ℝ, 0 < r ∧
      npvEq ((calculate_system_cost p6).total_cost : ℝ)
        ((calculate_cashflows p6).annual_savings : ℝ)
        p6.analysis_years r = 0 := by
  have hA1 : (calculate_cashflows p6).annual_savings = 1 := by
    norm_num [calculate_cashflows, calculate_system_cost, p6]
  have hC1 : (calculate_system_cost p6).total_cost = 100 := by
    norm_num [calculate_system_cost, p6]
  refine ⟨by rw [hA1]; norm_num, by rw [hC1]; norm_num, ?_⟩
  rw [hA1, hC1, show p6.analysis_years = 5 from rfl]
  rintro ⟨r, hr, heq⟩
  rw [show ((100 : ℚ) : ℝ) = 100 by norm_num,
    show ((1 : ℚ) : ℝ) = 1 by norm_num] at heq
  unfold npvEq at heq
  have hbound : ∑ t ∈ Finset.Icc 1 5, (1 : ℝ) / (1 + r) ^ t ≤ 5 := by
    have := Finset.sum_le_card_nsmul (Finset.Icc 1 5)
      (fun t => (1 : ℝ) / (1 + r) ^ t) 1 (fun t _ => by
        rw [div_le_one (pow_pos (by linarith) t)]
        exact one_le_pow₀ (by linarith))
    simpa using this
  linarith

/-- C6 (amended): for positive annual savings, positive total cost and a
horizon of at least one year, the discounted-cash-flow equation has a
unique real root `r` in the half-line `r > -1` targeted by the source's
root filter (the root need not be positive), and every value the IRR step
can return other than by falling back is exactly such a root. -/
theorem C6_amended (p : Params)
    (hA : 0 < (calculate_cashflows p).annual_savings)
    (hC : 0 < (calculate_system_cost p).total_cost)
    (hn : 1 ≤ p.analysis_years) :
    (∃! r : ℝ, -1 < r ∧
      npvEq ((calculate_system_cost p).total_cost : ℝ)
        ((calculate_cashflows p).annual_savings : ℝ)
        p.analysis_years r = 0) ∧
    ∀ i : ℝ, irrRel ((calculate_system_cost p).total_cost : ℝ)
        ((calculate_cashflows p).annual_savings : ℝ) p.analysis_years i →
      -1 < i ∧
      npvEq ((calculate_system_cost p).total_cost : ℝ)
        ((calculate_cashflows p).annual_savings : ℝ)
        p.analysis_years i = 0 := by
  have hCr : (0 : ℝ) < ((calculate_system_cost p).total_cost : ℝ) := by
    exact_mod_cast hC
  have hAr : (0 : ℝ) < ((calculate_cashflows p).annual_savings : ℝ) := by
    exact_mod_cast hA
  refine ⟨existsUnique_rate _ _ _ hCr hAr hn, ?_⟩
  intro i h
  rcases h with ⟨x, hx, hroot, -, rfl⟩ | ⟨hno, rfl⟩
  · exact ⟨by linarith, (cashPoly_zero_iff _ _ x _ hx).mp hroot⟩
  · exfalso
    obtain ⟨x, hx, hroot⟩ := exists_pos_root _ _ _ hCr hAr hn
    exact hno ⟨x, hx, hroot, Or.inl (ne_of_gt hCr)⟩

/-- Witness for the amended C6 at the concrete parameter set `pW`. -/
theorem C6_amended_witness :
    ∃! r : ℝ, -1 < r ∧
      npvEq ((calculate_system_cost pW).total_cost : ℝ)
        ((calculate_cashflows pW).annual_savings : ℝ)
        pW.analysis_years r = 0 :=
  (C6_amended pW
    (by norm_num [calculate_cashflows, calculate_system_cost, pW])
    (by norm_num [calculate_system_cost, pW]) (by decide)).1

/-- C7: whenever `total_system_cost = 0` or `annual_savings = 0` (with a
horizon of at least one year), the only value the IRR step can report is
the sentinel 0: the root selection is provably empty, so the fallback
branch of `irrRel` fires. -/
theorem C7_irr_sentinel (p : Params) (hn : 1 ≤ p.analysis_years)
    (hdeg : (calculate_system_cost p).total_cost = 0 ∨
      (calculate_cashflows p).annual_savings = 0) :
    ∀ i : ℝ, irrRel ((calculate_system_cost p).total_cost : ℝ)
      ((calculate_cashflows p).annual_savings : ℝ) p.analysis_years i ↔
      i = 0 := by
  apply irrRel_iff_zero_of_noSelection
  rcases hdeg with hc | ha
  · exact noSelection_of_C_zero _ _ _ hn (by rw [hc]; exact Rat.cast_zero)
  · by_cases hc : ((calculate_system_cost p).total_cost : ℝ) = 0
    · exact noSelection_of_C_zero _ _ _ hn hc
    · exact noSelection_of_A_zero _ _ _ (by rw [ha]; exact Rat.cast_zero) hc

/-- Witness for C7 at the concrete parameter set `pZ` (zero cost and zero
savings), instantiated at the sentinel value 0. -/
theorem C7_irr_sentinel_witness :
    irrRel ((calculate_system_cost pZ).total_cost : ℝ)
      ((calculate_cashflows pZ).annual_savings : ℝ) pZ.analysis_years 0 ↔
      (0 : ℝ) = 0 :=
  C7_irr_sentinel pZ (by decide) (Or.inl (by norm_num [calculate_system_cost, pZ])) 0

/-- C8 counterexample: at the valid input `pZ` (`peak_demand_charge = 0`,
zero-sized battery, hence `total_system_cost = 0`), the payback period is
year 0, not the positive-infinity sentinel, refuting the claim as
stated. -/
theorem C8_counterexample :
    pZ.peak_demand_charge = 0 ∧
    (calculate_cashflows pZ).payback_period = some 0 := by
  constructor
  · rfl
  · norm_num [calculate_cashflows, calculate_system_cost, pZ, npvLoop,
      payback, show List.range 3 = [0, 1, 2] from rfl]

/-- C8 (amended): for every valid input with `peak_demand_charge = 0`
(horizon of at least one year), `annual_savings = 0` and the IRR step
reports the sentinel 0; if additionally `total_system_cost > 0`, the
payback period is the infinity sentinel. -/
theorem C8_amended (p : Params) (hn : 1 ≤ p.analysis_years)
    (hch : p.peak_demand_charge = 0) :
    (calculate_cashflows p).annual_savings = 0 ∧
    (0 < (calculate_system_cost p).total_cost →
      (calculate_cashflows p).payback_period = none) ∧
    ∀ i : ℝ, irrRel ((calculate_system_cost p).total_cost : ℝ)
      ((calculate_cashflows p).annual_savings : ℝ) p.analysis_years i ↔
      i = 0 := by
  have hann : (calculate_cashflows p).annual_savings = 0 := by
    show min (min p.battery_power_kw p.peak_load_kw)
        (min (p.battery_capacity_kwh * (0.9 : ℚ) / p.peak_duration_hours)
          p.peak_load_kw) * p.peak_demand_charge * 12 = 0
    rw [hch, mul_zero, zero_mul]
  refine ⟨hann, ?_, ?_⟩
  · intro hC
    have hpp : (calculate_cashflows p).payback_period =
        payback (calculate_cashflows p).npv_values := rfl
    rw [hpp, payback_none_iff]
    intro i hi
    rw [npv_values_length p] at hi
    rw [npv_values_getD p i hi, npvRef, hann]
    simp only [zero_div, Finset.sum_const_zero, add_zero]
    exact neg_neg_of_pos hC
  · apply irrRel_iff_zero_of_noSelection
    by_cases hc : ((calculate_system_cost p).total_cost : ℝ) = 0
    · exact noSelection_of_C_zero _ _ _ hn hc
    · exact noSelection_of_A_zero _ _ _ (by rw [hann]; exact Rat.cast_zero) hc

/-- Witness for the amended C8 at a concrete parameter set with zero
demand charge but positive system cost. -/
theorem C8_amended_witness :
    (calculate_cashflows pZC).annual_savings = 0 ∧
    (0 < (calculate_system_cost pZC).total_cost →
      (calculate_cashflows pZC).payback_period = none) ∧
    ∀ i : ℝ, irrRel ((calculate_system_cost pZC).total_cost : ℝ)
      ((calculate_cashflows pZC).annual_savings : ℝ) pZC.analysis_years i ↔
      i = 0 :=
  C8_amended pZC (by decide) rfl

/-- C9: when the computed `annual_savings` and the input discount rate are
nonnegative, the `npv_values` sequence is non-decreasing. -/
theorem C9_npv_monotone (p : Params)
    (hA : 0 ≤ (calculate_cashflows p).annual_savings)
    (hd : 0 ≤ p.discount_rate) :
    ∀ i, i + 1 < (calculate_cashflows p).npv_values.length →
      (calculate_cashflows p).npv_values.getD i 0 ≤
        (calculate_cashflows p).npv_values.getD (i + 1) 0 := by
  intro i hi
  rw [npv_values_length p] at hi
  rw [npv_values_getD p (i + 1) hi,
    npv_values_getD p i (Nat.lt_of_succ_lt hi), npvRef_succ]
  have hpow : (0 : ℚ) < (1 + p.discount_rate / 100) ^ (i + 1) := by
    apply pow_pos
    have : (0 : ℚ) ≤ p.discount_rate / 100 := by positivity
    linarith
  have : 0 ≤ (calculate_cashflows p).annual_savings /
      (1 + p.discount_rate / 100) ^ (i + 1) :=
    div_nonneg hA (le_of_lt hpow)
  linarith

/-- Witness for C9 at the concrete parameter set `pW`, first step of the
sequence. -/
theorem C9_npv_monotone_witness :
    (calculate_cashflows pW).npv_values.getD 0 0 ≤
      (calculate_cashflows pW).npv_values.getD 1 0 :=
  C9_npv_monotone pW
    (by norm_num [calculate_cashflows, calculate_system_cost, pW])
    (by decide) 0
    (by rw [npv_values_length]; decide)

/-- C10: any value the IRR step can report is either the sentinel 0 or of
the form `x - 1` for a positive accepted root `x`; in both cases it is
strictly greater than -1, so `1 + irr` is always positive. -/
theorem C10_irr_gt_neg_one (p : Params) (i : ℝ)
    (h : irrRel ((calculate_system_cost p).total_cost : ℝ)
      ((calculate_cashflows p).annual_savings : ℝ) p.analysis_years i) :
    (i = 0 ∨ -1 < i) ∧ 0 < 1 + i := by
  rcases h with ⟨x, hx, -, -, rfl⟩ | ⟨-, rfl⟩
  · constructor
    · right; linarith
    · linarith
  · exact ⟨Or.inl rfl, by norm_num⟩

/-- Witness for C10 at the concrete parameter set `pZ`, where the
sentinel 0 is a value of the IRR relation. -/
theorem C10_irr_gt_neg_one_witness :
    ((0 : ℝ) = 0 ∨ -1 < (0 : ℝ)) ∧ (0 : ℝ) < 1 + 0 :=
  C10_irr_gt_neg_one pZ 0 (Or.inr
    ⟨noSelection_of_C_zero _ _ _ (by decide)
      (by rw [show (calculate_system_cost pZ).total_cost = 0 by
            norm_num [calculate_system_cost, pZ]]
          exact Rat.cast_zero), rfl⟩)

end Shaver
